import Mathlib

set_option maxHeartbeats 1000000

namespace P25

/-- Transcript state of the duplex challenger, mirroring the struct
`DuplexChallengerTarget` in src/p3/challenger.rs: a sponge state of wires, an
input buffer of wires awaiting absorption, and an output buffer of wires
pending release as challenges.  The wire type `T` is abstract. -/
structure DuplexChallengerTarget (T : Type) where
  sponge_state : List T
  input_buffer : List T
  output_buffer : List T
deriving DecidableEq

/-- Overwrite loop of `p3_duplexing` (challenger.rs lines 72-74): for
`(i, val)` in `input_buffer.drain(..).enumerate()`, set `sponge_state[i] = val`;
the remaining slots are untouched.  When the buffer is longer than the sponge
the Rust indexing would panic; that case is unreachable under the invariant
`sponge_state.length = WIDTH ∧ input_buffer.length ≤ WIDTH` under which every
theorem below operates. -/
def overwriteFirst {T : Type} : List T → List T → List T
  | sponge, [] => sponge
  | [], _ :: _ => []
  | _ :: s, v :: vs => v :: overwriteFirst s vs

variable {T : Type}

/-- Duplex operation `p3_duplexing` (challenger.rs lines 69-98): assert
`input_buffer.len() <= WIDTH` (the Rust `assert!` aborts construction, modelled
as `none`); overwrite the first `input_buffer.len()` slots of `sponge_state`
with the buffered values in order; drain `input_buffer`; apply the permutation
to `sponge_state` in place; replace `output_buffer` with a copy of the whole
post-permutation sponge state.  `WIDTH` (from crate::p3::constants, outside
src/) and the Poseidon2 permutation `perm` (from crate::common::hash::poseidon2,
outside src/) are parameters: per the spec the permutation is an opaque external
primitive taking `WIDTH` wires to `WIDTH` wires. -/
def p3_duplexing (WIDTH : Nat) (perm : List T → List T)
    (x : DuplexChallengerTarget T) : Option (DuplexChallengerTarget T) :=
  if x.input_buffer.length ≤ WIDTH then
    let sponge := perm (overwriteFirst x.sponge_state x.input_buffer)
    some { sponge_state := sponge, input_buffer := [], output_buffer := sponge }
  else
    none

/-- Absorb operation `p3_observe_single` (challenger.rs lines 100-111): clear
`output_buffer`, push `value` onto `input_buffer`, and run the duplex operation
exactly when the input buffer has reached length `WIDTH`. -/
def p3_observe_single (WIDTH : Nat) (perm : List T → List T) (value : T)
    (x : DuplexChallengerTarget T) : Option (DuplexChallengerTarget T) :=
  let x1 : DuplexChallengerTarget T :=
    { x with output_buffer := [], input_buffer := x.input_buffer ++ [value] }
  if x1.input_buffer.length = WIDTH then p3_duplexing WIDTH perm x1 else some x1

/-- Absorb operation `p3_observe` (challenger.rs lines 113-121): absorb each
value in sequence order via `p3_observe_single`. -/
def p3_observe (WIDTH : Nat) (perm : List T → List T) :
    List T → DuplexChallengerTarget T → Option (DuplexChallengerTarget T)
  | [], x => some x
  | v :: vs, x => (p3_observe_single WIDTH perm v x).bind (p3_observe WIDTH perm vs)

/-- The guard of the conditional in `p3_sample` (challenger.rs line 126):
duplexing is required when there are buffered inputs or no pending outputs. -/
def sampleNeedsDuplex (x : DuplexChallengerTarget T) : Bool :=
  !x.input_buffer.isEmpty || x.output_buffer.isEmpty

/-- Squeeze operation `p3_sample` (challenger.rs lines 123-133): run the duplex
operation when `sampleNeedsDuplex` holds, then pop the last element of
`output_buffer` (`Vec::pop`; the `expect` on an empty buffer aborts, modelled as
`none`). -/
def p3_sample (WIDTH : Nat) (perm : List T → List T)
    (x : DuplexChallengerTarget T) : Option (T × DuplexChallengerTarget T) :=
  (if sampleNeedsDuplex x then p3_duplexing WIDTH perm x else some x).bind fun x1 =>
    match x1.output_buffer.getLast? with
    | some v => some (v, { x1 with output_buffer := x1.output_buffer.dropLast })
    | none => none

/-- Squeeze operation `p3_sample_arr` (challenger.rs lines 135-140): call
`p3_sample` exactly `n` times, collecting the results in call order. -/
def p3_sample_arr (WIDTH : Nat) (perm : List T → List T) :
    Nat → DuplexChallengerTarget T → Option (List T × DuplexChallengerTarget T)
  | 0, x => some ([], x)
  | n + 1, x =>
    (p3_sample WIDTH perm x).bind fun vx =>
      (p3_sample_arr WIDTH perm n vx.2).map fun vsx => (vx.1 :: vsx.1, vsx.2)

/-- Extension-field wrapper `BinomialExtensionTarget` (crate::p3::types): a
plain grouping of coefficient wires. -/
structure BinomialExtensionTarget (T : Type) where
  value : List T
deriving DecidableEq

/-- Squeeze operation `p3_sample_ext` (challenger.rs lines 166-173): sample an
array of `E` coefficients and package it as an extension-field element. -/
def p3_sample_ext (WIDTH : Nat) (perm : List T → List T) (E : Nat)
    (x : DuplexChallengerTarget T) :
    Option (BinomialExtensionTarget T × DuplexChallengerTarget T) :=
  (p3_sample_arr WIDTH perm E x).map fun vsx => (⟨vsx.1⟩, vsx.2)

/-- Modelled from the spec: the prime modulus of the target field. The code is
generic over plonky2's `RichField` (implemented by the Goldilocks field,
p = 2^64 - 2^32 + 1, satisfying p > 2^63 ≥ every masked result below); the
field type lives outside src/. -/
def GOLDILOCKS : Nat := 2 ^ 64 - 2 ^ 32 + 1

/-- Modelled from the spec: field-constant injection `p3_constant`
(crate::p3, outside src/), the canonical value of a u64 constant. -/
def p3_constant (c : Nat) : Nat := c % GOLDILOCKS

/-- Modelled from the spec: field subtraction on canonical values (`self.sub`),
here applied only with canonical arguments `a b < GOLDILOCKS`. -/
def fsub (a b : Nat) : Nat := (a + (GOLDILOCKS - b % GOLDILOCKS)) % GOLDILOCKS

/-- Modelled from the spec: `split_low_high(x, 32, 64)`
(crate::common::u32::arithmetic_u32, outside src/) splits the canonical 64-bit
value of a wire into its low 32 bits and high 32 bits. -/
def split_low_high (x : Nat) : Nat × Nat := (x % 2 ^ 32, x / 2 ^ 32)

/-- Modelled from the spec: `and_u64` (crate::common::u32::interleaved_u32,
outside src/), the 32-bit bitwise AND gadget applied limbwise to a pair of
(low, high) limbs. -/
def and_u64 (a b : Nat × Nat) : Nat × Nat := (a.1 &&& b.1, a.2 &&& b.2)

/-- Modelled from the spec: `mul_const_add c a b = c * a + b` computed with
field multiplication and addition. -/
def mul_const_add (c a b : Nat) : Nat := (c * a + b) % GOLDILOCKS

/-- Bounded-bit derivation `p3_sample_bits` (challenger.rs lines 142-164), at
the value level (wires carry canonical field values, type `Nat`): sample one
challenge `rand_f`, split it into 32-bit limbs, form the field constant
`(1 << bits) - 1` and split it identically, AND the limb pairs with the 32-bit
bitwise gadget, and recombine as `high * 2^32 + low` with field arithmetic. -/
def p3_sample_bits (WIDTH : Nat) (perm : List Nat → List Nat) (bits : Nat)
    (x : DuplexChallengerTarget Nat) : Option (Nat × DuplexChallengerTarget Nat) :=
  (p3_sample WIDTH perm x).map fun rx =>
    let rand_f := rx.1
    let lohi := split_low_high rand_f
    let one := 1
    let power_of_bits := p3_constant (2 ^ bits)
    let power_of_bits_minus_one := fsub power_of_bits one
    let masklohi := split_low_high power_of_bits_minus_one
    let lh := and_u64 lohi masklohi
    (mul_const_add (p3_constant (2 ^ 32)) lh.2 lh.1, rx.2)

/-- Proof-of-work check `p3_check_witness` (challenger.rs lines 175-185):
absorb `witness` with one `p3_observe_single` call, derive
`res = p3_sample_bits bits`, and emit the single equality constraint
`connect res zero`, modelled as the pair `(res, 0)`; no value is returned. -/
def p3_check_witness (WIDTH : Nat) (perm : List Nat → List Nat) (bits : Nat)
    (witness : Nat) (x : DuplexChallengerTarget Nat) :
    Option (DuplexChallengerTarget Nat × (Nat × Nat)) :=
  (p3_observe_single WIDTH perm witness x).bind fun x1 =>
    (p3_sample_bits WIDTH perm bits x1).map fun rx => (rx.2, (rx.1, 0))

/-- Constructor `from_builder` (challenger.rs lines 23-31): the sponge state is
an array of `WIDTH` fresh wires (`cb.p3_arr::<WIDTH>()`, modelled by a wire
supply `fresh`), and both buffers start empty. -/
def from_builder (WIDTH : Nat) (fresh : Nat → T) : DuplexChallengerTarget T :=
  { sponge_state := (List.range WIDTH).map fresh
    input_buffer := []
    output_buffer := [] }

/-- One operation of the public surface of the challenger
(trait DuplexChallenger, challenger.rs lines 34-66). -/
inductive ChallengerOp where
  | observe_single (v : Nat)
  | observe (vs : List Nat)
  | sample
  | sample_arr (n : Nat)
  | sample_ext (e : Nat)
  | sample_bits (bits : Nat)
  | check_witness (bits : Nat) (w : Nat)

/-- Transcript-state effect of one public operation (sampled values and emitted
constraints discarded). -/
def runOp (WIDTH : Nat) (perm : List Nat → List Nat) :
    ChallengerOp → DuplexChallengerTarget Nat → Option (DuplexChallengerTarget Nat)
  | .observe_single v, x => p3_observe_single WIDTH perm v x
  | .observe vs, x => p3_observe WIDTH perm vs x
  | .sample, x => (p3_sample WIDTH perm x).map (·.2)
  | .sample_arr n, x => (p3_sample_arr WIDTH perm n x).map (·.2)
  | .sample_ext e, x => (p3_sample_ext WIDTH perm e x).map (·.2)
  | .sample_bits b, x => (p3_sample_bits WIDTH perm b x).map (·.2)
  | .check_witness b w, x => (p3_check_witness WIDTH perm b w x).map (·.1)

/-- Run a sequence of public operations. -/
def runOps (WIDTH : Nat) (perm : List Nat → List Nat) :
    List ChallengerOp → DuplexChallengerTarget Nat → Option (DuplexChallengerTarget Nat)
  | [], x => some x
  | op :: ops, x => (runOp WIDTH perm op x).bind (runOps WIDTH perm ops)

/-- Number of permutation invocations performed by `n` successive `p3_sample`
calls: `p3_duplexing` is the unique call site of the permutation and `p3_sample`
invokes it exactly when `sampleNeedsDuplex` holds. -/
def duplexTriggerCount (WIDTH : Nat) (perm : List T → List T) :
    Nat → DuplexChallengerTarget T → Nat
  | 0, _ => 0
  | n + 1, x =>
    (if sampleNeedsDuplex x then 1 else 0) +
      match p3_sample WIDTH perm x with
      | some vx => duplexTriggerCount WIDTH perm n vx.2
      | none => 0

/-- Length preservation of the opaque permutation primitive, as specified: it
maps a state of WIDTH wires to a state of WIDTH wires. -/
def PermGood (WIDTH : Nat) (perm : List T → List T) : Prop :=
  ∀ s : List T, s.length = WIDTH → (perm s).length = WIDTH

/-- Invariant maintained between public operations: the sponge has exactly
WIDTH wires and the input buffer is strictly below WIDTH. -/
def GoodState (WIDTH : Nat) (x : DuplexChallengerTarget T) : Prop :=
  x.sponge_state.length = WIDTH ∧ x.input_buffer.length < WIDTH

/-- Bounded-bit derivation written following the wording of the spec (section
4.5): split the challenge r into 32-bit limbs, form the mask (1 << bits) - 1,
split it identically, AND limbwise, recombine as high * 2^32 + low in the
field. -/
def sample_bits_spec (bits r : Nat) : Nat :=
  let r_low := r % 2 ^ 32
  let r_high := r / 2 ^ 32
  let mask := 2 ^ bits - 1
  let mask_low := mask % 2 ^ 32
  let mask_high := mask / 2 ^ 32
  let low := r_low &&& mask_low
  let high := r_high &&& mask_high
  (high * 2 ^ 32 + low) % GOLDILOCKS

/-! ### Helper lemmas -/

lemma overwriteFirst_length (s b : List T) : (overwriteFirst s b).length = s.length := by
  induction b generalizing s with
  | nil => cases s <;> rfl
  | cons v vs ih =>
    cases s with
    | nil => rfl
    | cons a s => simp [overwriteFirst, ih]

lemma overwriteFirst_eq_append (s b : List T) (h : b.length ≤ s.length) :
    overwriteFirst s b = b ++ s.drop b.length := by
  induction b generalizing s with
  | nil => simp [overwriteFirst]
  | cons v vs ih =>
    cases s with
    | nil => simp at h
    | cons a s =>
      simp only [List.length_cons, Nat.add_le_add_iff_right] at h
      simp [overwriteFirst, ih s h]

lemma p3_duplexing_eq (WIDTH : Nat) (perm : List T → List T)
    (x : DuplexChallengerTarget T) (h : x.input_buffer.length ≤ WIDTH) :
    p3_duplexing WIDTH perm x =
      some { sponge_state := perm (overwriteFirst x.sponge_state x.input_buffer),
             input_buffer := [],
             output_buffer := perm (overwriteFirst x.sponge_state x.input_buffer) } := by
  simp [p3_duplexing, h]

lemma reverse_eq_getLast_cons (l : List T) (h : l ≠ []) :
    l.reverse = l.getLast h :: l.dropLast.reverse := by
  conv_lhs => rw [← List.dropLast_append_getLast h]
  rw [List.reverse_append]
  simp

lemma sampleNeedsDuplex_false (x : DuplexChallengerTarget T)
    (hin : x.input_buffer = []) (hout : x.output_buffer ≠ []) :
    sampleNeedsDuplex x = false := by
  cases h : x.output_buffer with
  | nil => exact absurd h hout
  | cons a t => simp [sampleNeedsDuplex, hin, h]

lemma p3_sample_of_no_duplex (WIDTH : Nat) (perm : List T → List T)
    (x : DuplexChallengerTarget T) (hin : x.input_buffer = [])
    (hout : x.output_buffer ≠ []) :
    p3_sample WIDTH perm x =
      some (x.output_buffer.getLast hout,
        { x with output_buffer := x.output_buffer.dropLast }) := by
  rw [p3_sample, sampleNeedsDuplex_false x hin hout]
  simp [List.getLast?_eq_getLast _ hout]

/-- Draining an already-full output buffer: with no pending input, `n` samples
(for `n` at most the buffer length) pop the last `n` entries in reverse order,
invoke no permutation, and leave the first `length - n` entries. -/
lemma sample_drain (WIDTH : Nat) (perm : List T → List T) (n k : Nat)
    (x : DuplexChallengerTarget T) (hin : x.input_buffer = [])
    (hn : n ≤ x.output_buffer.length) :
    p3_sample_arr WIDTH perm n x =
      some (x.output_buffer.reverse.take n,
        { x with output_buffer := x.output_buffer.take (x.output_buffer.length - n) }) ∧
    duplexTriggerCount WIDTH perm (n + k) x =
      duplexTriggerCount WIDTH perm k
        { x with output_buffer := x.output_buffer.take (x.output_buffer.length - n) } := by
  induction n generalizing x k with
  | zero =>
    rw [Nat.sub_zero, List.take_length]
    exact ⟨rfl, by rw [Nat.zero_add]⟩
  | succ n ih =>
    have hne : x.output_buffer ≠ [] := by
      intro h0
      rw [h0] at hn
      simp at hn
    have hs := p3_sample_of_no_duplex WIDTH perm x hin hne
    have hlen : x.output_buffer.dropLast.length = x.output_buffer.length - 1 :=
      List.length_dropLast _
    have hn' : n ≤ x.output_buffer.dropLast.length := by
      rw [hlen]; omega
    have ih' := ih k { x with output_buffer := x.output_buffer.dropLast } hin hn'
    have harith : x.output_buffer.dropLast.length - n = x.output_buffer.length - 1 - n := by
      rw [hlen]
    have hstate :
        ({ { x with output_buffer := x.output_buffer.dropLast } with
            output_buffer := x.output_buffer.dropLast.take
              (x.output_buffer.dropLast.length - n) } : DuplexChallengerTarget T) =
        { x with output_buffer := x.output_buffer.take (x.output_buffer.length - (n + 1)) } := by
      have h1 : x.output_buffer.dropLast.take (x.output_buffer.dropLast.length - n) =
          x.output_buffer.take (x.output_buffer.length - (n + 1)) := by
        rw [harith, List.dropLast_eq_take, List.take_take]
        have : min (x.output_buffer.length - 1 - n) (x.output_buffer.length - 1) =
            x.output_buffer.length - (n + 1) := by omega
        rw [this]
      rw [h1]
    constructor
    · rw [p3_sample_arr, hs, Option.some_bind, ih'.1, Option.map_some']
      rw [hstate]
      have hrev : x.output_buffer.reverse.take (n + 1) =
          x.output_buffer.getLast hne :: x.output_buffer.dropLast.reverse.take n := by
        rw [reverse_eq_getLast_cons x.output_buffer hne, List.take_succ_cons]
      rw [hrev]
    · have hcount : n + 1 + k = (n + k) + 1 := by omega
      rw [hcount, duplexTriggerCount, sampleNeedsDuplex_false x hin hne, hs]
      simp only [Bool.false_eq_true, if_false, Nat.zero_add]
      rw [ih'.2, hstate]

lemma duplex_good (WIDTH : Nat) (perm : List T → List T) (hW : 1 ≤ WIDTH)
    (hperm : PermGood WIDTH perm) (x : DuplexChallengerTarget T)
    (hsp : x.sponge_state.length = WIDTH) (hin : x.input_buffer.length ≤ WIDTH) :
    ∃ x', p3_duplexing WIDTH perm x = some x' ∧ GoodState WIDTH x' ∧
      x'.output_buffer.length = WIDTH := by
  refine ⟨_, p3_duplexing_eq WIDTH perm x hin, ⟨?_, ?_⟩, ?_⟩
  · exact hperm _ (by rw [overwriteFirst_length, hsp])
  · simpa using hW
  · exact hperm _ (by rw [overwriteFirst_length, hsp])

lemma observe_single_good (WIDTH : Nat) (perm : List T → List T) (hW : 1 ≤ WIDTH)
    (hperm : PermGood WIDTH perm) (v : T) (x : DuplexChallengerTarget T)
    (hx : GoodState WIDTH x) :
    ∃ x', p3_observe_single WIDTH perm v x = some x' ∧ GoodState WIDTH x' := by
  obtain ⟨hsp, hin⟩ := hx
  have hdef : p3_observe_single WIDTH perm v x =
      if (x.input_buffer ++ [v]).length = WIDTH
      then p3_duplexing WIDTH perm ⟨x.sponge_state, x.input_buffer ++ [v], []⟩
      else some ⟨x.sponge_state, x.input_buffer ++ [v], []⟩ := rfl
  by_cases h : (x.input_buffer ++ [v]).length = WIDTH
  · rw [hdef, if_pos h]
    obtain ⟨x', he, hg, -⟩ :=
      duplex_good WIDTH perm hW hperm ⟨x.sponge_state, x.input_buffer ++ [v], []⟩ hsp
        (Nat.le_of_eq h)
    exact ⟨x', he, hg⟩
  · rw [hdef, if_neg h]
    refine ⟨_, rfl, hsp, ?_⟩
    simp only [List.length_append, List.length_cons, List.length_nil] at h ⊢
    omega

lemma sample_good (WIDTH : Nat) (perm : List T → List T) (hW : 1 ≤ WIDTH)
    (hperm : PermGood WIDTH perm) (x : DuplexChallengerTarget T)
    (hx : GoodState WIDTH x) :
    ∃ v x', p3_sample WIDTH perm x = some (v, x') ∧ GoodState WIDTH x' := by
  obtain ⟨hsp, hin⟩ := hx
  cases hd : sampleNeedsDuplex x with
  | true =>
    obtain ⟨x1, he, ⟨hsp1, hin1⟩, hout1⟩ :=
      duplex_good WIDTH perm hW hperm x hsp (Nat.le_of_lt hin)
    have hne : x1.output_buffer ≠ [] := by
      intro h0
      rw [h0] at hout1
      simp at hout1
      omega
    refine ⟨x1.output_buffer.getLast hne,
      { x1 with output_buffer := x1.output_buffer.dropLast }, ?_, hsp1, hin1⟩
    unfold p3_sample
    rw [hd, if_pos rfl, he, Option.some_bind, List.getLast?_eq_getLast _ hne]
  | false =>
    simp only [sampleNeedsDuplex, Bool.or_eq_false_iff, Bool.not_eq_false',
      List.isEmpty_iff, List.isEmpty_eq_false] at hd
    obtain ⟨hin0, hne⟩ := hd
    exact ⟨x.output_buffer.getLast hne, _,
      p3_sample_of_no_duplex WIDTH perm x hin0 hne, hsp, hin⟩

lemma sample_arr_good (WIDTH : Nat) (perm : List T → List T) (hW : 1 ≤ WIDTH)
    (hperm : PermGood WIDTH perm) (n : Nat) (x : DuplexChallengerTarget T)
    (hx : GoodState WIDTH x) :
    ∃ vs x', p3_sample_arr WIDTH perm n x = some (vs, x') ∧ GoodState WIDTH x' := by
  induction n generalizing x with
  | zero => exact ⟨[], x, rfl, hx⟩
  | succ n ih =>
    obtain ⟨v, x1, he, hg1⟩ := sample_good WIDTH perm hW hperm x hx
    obtain ⟨vs, x2, he2, hg2⟩ := ih x1 hg1
    refine ⟨v :: vs, x2, ?_, hg2⟩
    rw [p3_sample_arr, he, Option.some_bind, he2, Option.map_some']

lemma observe_good (WIDTH : Nat) (perm : List T → List T) (hW : 1 ≤ WIDTH)
    (hperm : PermGood WIDTH perm) (vs : List T) (x : DuplexChallengerTarget T)
    (hx : GoodState WIDTH x) :
    ∃ x', p3_observe WIDTH perm vs x = some x' ∧ GoodState WIDTH x' := by
  induction vs generalizing x with
  | nil => exact ⟨x, rfl, hx⟩
  | cons v vs ih =>
    obtain ⟨x1, he, hg1⟩ := observe_single_good WIDTH perm hW hperm v x hx
    obtain ⟨x2, he2, hg2⟩ := ih x1 hg1
    refine ⟨x2, ?_, hg2⟩
    rw [p3_observe, he, Option.some_bind, he2]

lemma sample_bits_good (WIDTH : Nat) (perm : List Nat → List Nat) (hW : 1 ≤ WIDTH)
    (hperm : PermGood WIDTH perm) (bits : Nat) (x : DuplexChallengerTarget Nat)
    (hx : GoodState WIDTH x) :
    ∃ v x', p3_sample_bits WIDTH perm bits x = some (v, x') ∧ GoodState WIDTH x' := by
  obtain ⟨v, x1, he, hg1⟩ := sample_good WIDTH perm hW hperm x hx
  obtain ⟨v2, hv2⟩ : ∃ v2, p3_sample_bits WIDTH perm bits x = some (v2, x1) := by
    rw [p3_sample_bits, he, Option.map_some']
    exact ⟨_, rfl⟩
  exact ⟨v2, x1, hv2, hg1⟩

lemma check_witness_good (WIDTH : Nat) (perm : List Nat → List Nat) (hW : 1 ≤ WIDTH)
    (hperm : PermGood WIDTH perm) (bits w : Nat) (x : DuplexChallengerTarget Nat)
    (hx : GoodState WIDTH x) :
    ∃ x' c, p3_check_witness WIDTH perm bits w x = some (x', c) ∧ GoodState WIDTH x' := by
  obtain ⟨x1, he, hg1⟩ := observe_single_good WIDTH perm hW hperm w x hx
  obtain ⟨v, x2, he2, hg2⟩ := sample_bits_good WIDTH perm hW hperm bits x1 hg1
  refine ⟨x2, (v, 0), ?_, hg2⟩
  rw [p3_check_witness, he, Option.some_bind, he2, Option.map_some']

lemma runOp_good (WIDTH : Nat) (perm : List Nat → List Nat) (hW : 1 ≤ WIDTH)
    (hperm : PermGood WIDTH perm) (op : ChallengerOp) (x : DuplexChallengerTarget Nat)
    (hx : GoodState WIDTH x) :
    ∃ x', runOp WIDTH perm op x = some x' ∧ GoodState WIDTH x' := by
  cases op with
  | observe_single v => exact observe_single_good WIDTH perm hW hperm v x hx
  | observe vs => exact observe_good WIDTH perm hW hperm vs x hx
  | sample =>
    obtain ⟨v, x1, he, hg⟩ := sample_good WIDTH perm hW hperm x hx
    exact ⟨x1, by rw [runOp, he, Option.map_some'], hg⟩
  | sample_arr n =>
    obtain ⟨vs, x1, he, hg⟩ := sample_arr_good WIDTH perm hW hperm n x hx
    exact ⟨x1, by rw [runOp, he, Option.map_some'], hg⟩
  | sample_ext e =>
    obtain ⟨vs, x1, he, hg⟩ := sample_arr_good WIDTH perm hW hperm e x hx
    exact ⟨x1, by rw [runOp, p3_sample_ext, he, Option.map_some', Option.map_some'], hg⟩
  | sample_bits b =>
    obtain ⟨v, x1, he, hg⟩ := sample_bits_good WIDTH perm hW hperm b x hx
    exact ⟨x1, by rw [runOp, he, Option.map_some'], hg⟩
  | check_witness b w =>
    obtain ⟨x1, c, he, hg⟩ := check_witness_good WIDTH perm hW hperm b w x hx
    exact ⟨x1, by rw [runOp, he, Option.map_some'], hg⟩

lemma overwriteFirst_nil (s : List T) : overwriteFirst s [] = s := by
  cases s <;> rfl

lemma p3_sample_of_duplex (WIDTH : Nat) (perm : List T → List T)
    (x : DuplexChallengerTarget T) (hd : sampleNeedsDuplex x = true)
    (x1 : DuplexChallengerTarget T) (he : p3_duplexing WIDTH perm x = some x1)
    (hne : x1.output_buffer ≠ []) :
    p3_sample WIDTH perm x =
      some (x1.output_buffer.getLast hne,
        { x1 with output_buffer := x1.output_buffer.dropLast }) := by
  unfold p3_sample
  rw [hd, if_pos rfl, he, Option.some_bind, List.getLast?_eq_getLast _ hne]

lemma two_pow_lt_goldilocks (bits : Nat) (hb : bits ≤ 63) : 2 ^ bits < GOLDILOCKS := by
  have h1 : (2 : Nat) ^ bits ≤ 2 ^ 63 := Nat.pow_le_pow_right (by norm_num) hb
  have h2 : (2 : Nat) ^ 63 < GOLDILOCKS := by norm_num [GOLDILOCKS]
  omega

lemma p3_constant_pow (bits : Nat) (hb : bits ≤ 63) : p3_constant (2 ^ bits) = 2 ^ bits :=
  Nat.mod_eq_of_lt (two_pow_lt_goldilocks bits hb)

lemma fsub_mask (bits : Nat) (hb : bits ≤ 63) :
    fsub (p3_constant (2 ^ bits)) 1 = 2 ^ bits - 1 := by
  rw [p3_constant_pow bits hb]
  unfold fsub
  have hone : (1 : Nat) % GOLDILOCKS = 1 := by norm_num [GOLDILOCKS]
  rw [hone]
  have h1 : (1 : Nat) ≤ 2 ^ bits := Nat.one_le_two_pow
  have hg : (1 : Nat) ≤ GOLDILOCKS := by norm_num [GOLDILOCKS]
  have hlt := two_pow_lt_goldilocks bits hb
  have hsplit : 2 ^ bits + (GOLDILOCKS - 1) = (2 ^ bits - 1) + GOLDILOCKS := by omega
  rw [hsplit, Nat.add_mod_right, Nat.mod_eq_of_lt (by omega)]

/-! ### Claim theorems -/

/-- C1: the duplex operation, on a state whose input buffer holds at most WIDTH
elements, overwrites the first input_buffer.length slots of the sponge with the
buffered values in order leaving the remaining slots untouched, drains the
input buffer, permutes the sponge in place, and replaces the output buffer with
a copy of the full post-permutation sponge; afterwards the input buffer is
empty, the output buffer has length exactly WIDTH, and the output buffer equals
the sponge element-for-element. -/
theorem C1_duplexing_contract (WIDTH : Nat) (perm : List T → List T)
    (x : DuplexChallengerTarget T) (hperm : PermGood WIDTH perm)
    (hsp : x.sponge_state.length = WIDTH) (hin : x.input_buffer.length ≤ WIDTH) :
    p3_duplexing WIDTH perm x =
      some { sponge_state := perm (x.input_buffer ++ x.sponge_state.drop x.input_buffer.length),
             input_buffer := [],
             output_buffer := perm (x.input_buffer ++ x.sponge_state.drop x.input_buffer.length) } ∧
    (perm (x.input_buffer ++ x.sponge_state.drop x.input_buffer.length)).length = WIDTH := by
  have hbs : x.input_buffer.length ≤ x.sponge_state.length := by omega
  constructor
  · rw [p3_duplexing_eq WIDTH perm x hin, overwriteFirst_eq_append _ _ hbs]
  · apply hperm
    rw [List.length_append, List.length_drop]
    omega

/-- Witness for C1: WIDTH 3, the reverse permutation, a state with two buffered
inputs. -/
theorem C1_duplexing_contract_witness :
    p3_duplexing 3 List.reverse (⟨[1, 2, 3], [9, 8], [5]⟩ : DuplexChallengerTarget Nat) =
      some { sponge_state := List.reverse ([9, 8] ++ ([1, 2, 3] : List Nat).drop 2),
             input_buffer := [],
             output_buffer := List.reverse ([9, 8] ++ ([1, 2, 3] : List Nat).drop 2) } ∧
    (List.reverse ([9, 8] ++ ([1, 2, 3] : List Nat).drop 2)).length = 3 :=
  C1_duplexing_contract 3 List.reverse ⟨[1, 2, 3], [9, 8], [5]⟩
    (fun s h => (List.length_reverse s).trans h) rfl (by decide)

/-- C2: p3_sample runs the duplex operation exactly when the input buffer is
nonempty or the output buffer is empty, and then pops the last element of the
output buffer; consequently, with no pending input, repeated samples release
the buffered post-permutation state in reverse order. -/
theorem C2_sample_consumption {T : Type} [DecidableEq T] (WIDTH : Nat)
    (perm : List T → List T) (x y : DuplexChallengerTarget T) (n : Nat)
    (hin : x.input_buffer = []) (hn : n ≤ x.output_buffer.length) :
    p3_sample WIDTH perm y =
      ((if y.input_buffer ≠ [] ∨ y.output_buffer = [] then p3_duplexing WIDTH perm y
        else some y).bind fun z =>
          match z.output_buffer.getLast? with
          | some v => some (v, { z with output_buffer := z.output_buffer.dropLast })
          | none => none) ∧
    p3_sample_arr WIDTH perm n x =
      some (x.output_buffer.reverse.take n,
        { x with output_buffer := x.output_buffer.take (x.output_buffer.length - n) }) := by
  constructor
  · have hiff : (sampleNeedsDuplex y = true) ↔
        (y.input_buffer ≠ [] ∨ y.output_buffer = []) := by
      simp [sampleNeedsDuplex, List.isEmpty_iff, List.isEmpty_eq_false]
    have hif : (if sampleNeedsDuplex y then p3_duplexing WIDTH perm y else some y) =
        (if y.input_buffer ≠ [] ∨ y.output_buffer = [] then p3_duplexing WIDTH perm y
         else some y) := if_congr hiff rfl rfl
    unfold p3_sample
    rw [hif]
  · exact (sample_drain WIDTH perm n 0 x hin hn).1

/-- Witness for C2: WIDTH 2, the reverse permutation, a drained state with two
pending outputs and an unconstrained second state. -/
theorem C2_sample_consumption_witness :
    p3_sample 2 List.reverse (⟨[1, 2], [3], [4]⟩ : DuplexChallengerTarget Nat) =
      ((if (⟨[1, 2], [3], [4]⟩ : DuplexChallengerTarget Nat).input_buffer ≠ [] ∨
          (⟨[1, 2], [3], [4]⟩ : DuplexChallengerTarget Nat).output_buffer = []
        then p3_duplexing 2 List.reverse (⟨[1, 2], [3], [4]⟩ : DuplexChallengerTarget Nat)
        else some ⟨[1, 2], [3], [4]⟩).bind fun z =>
          match z.output_buffer.getLast? with
          | some v => some (v, { z with output_buffer := z.output_buffer.dropLast })
          | none => none) ∧
    p3_sample_arr 2 List.reverse 2 (⟨[1, 2], [], [8, 9]⟩ : DuplexChallengerTarget Nat) =
      some (([8, 9] : List Nat).reverse.take 2,
        { (⟨[1, 2], [], [8, 9]⟩ : DuplexChallengerTarget Nat) with
            output_buffer := ([8, 9] : List Nat).take (([8, 9] : List Nat).length - 2) }) :=
  C2_sample_consumption 2 List.reverse ⟨[1, 2], [], [8, 9]⟩ ⟨[1, 2], [3], [4]⟩ 2 rfl
    (by decide)

/-- C3: for bits at most 63, p3_sample_bits samples one fresh challenge and
then computes exactly the limb-split, mask, limbwise-AND, recombine pipeline
described by the spec (sample_bits_spec). -/
theorem C3_sample_bits_algorithm (WIDTH : Nat) (perm : List Nat → List Nat)
    (bits : Nat) (x : DuplexChallengerTarget Nat) (hb : bits ≤ 63) :
    p3_sample_bits WIDTH perm bits x =
      (p3_sample WIDTH perm x).map fun rx => (sample_bits_spec bits rx.1, rx.2) := by
  unfold p3_sample_bits
  cases hs : p3_sample WIDTH perm x with
  | none => simp only [Option.map_none']
  | some rx =>
    rw [Option.map_some', Option.map_some']
    simp only [split_low_high, and_u64]
    rw [fsub_mask bits hb, p3_constant_pow 32 (by norm_num)]
    unfold sample_bits_spec mul_const_add
    rw [Nat.mul_comm]

/-- Witness for C3: WIDTH 2, the reverse permutation, bits 5. -/
theorem C3_sample_bits_algorithm_witness :
    p3_sample_bits 2 List.reverse 5 (⟨[5, 7], [], []⟩ : DuplexChallengerTarget Nat) =
      (p3_sample 2 List.reverse (⟨[5, 7], [], []⟩ : DuplexChallengerTarget Nat)).map
        fun rx => (sample_bits_spec 5 rx.1, rx.2) :=
  C3_sample_bits_algorithm 2 List.reverse 5 ⟨[5, 7], [], []⟩ (by decide)

/-- C4: p3_observe_single clears the output buffer unconditionally, appends the
value to the input buffer, and runs the duplex operation exactly when the input
buffer has reached length WIDTH; p3_observe folds p3_observe_single over the
values in sequence order. -/
theorem C4_observe_contract (WIDTH : Nat) (perm : List T → List T)
    (v : T) (x y : DuplexChallengerTarget T) (vs : List T) :
    p3_observe_single WIDTH perm v x =
      (if x.input_buffer.length + 1 = WIDTH
        then p3_duplexing WIDTH perm ⟨x.sponge_state, x.input_buffer ++ [v], []⟩
        else some ⟨x.sponge_state, x.input_buffer ++ [v], []⟩) ∧
    p3_observe WIDTH perm (v :: vs) y =
      (p3_observe_single WIDTH perm v y).bind (p3_observe WIDTH perm vs) ∧
    p3_observe WIDTH perm [] y = some y := by
  refine ⟨?_, rfl, rfl⟩
  have hdef : p3_observe_single WIDTH perm v x =
      if (x.input_buffer ++ [v]).length = WIDTH
      then p3_duplexing WIDTH perm ⟨x.sponge_state, x.input_buffer ++ [v], []⟩
      else some ⟨x.sponge_state, x.input_buffer ++ [v], []⟩ := rfl
  rw [hdef]
  exact if_congr (by simp) rfl rfl

/-- C5: p3_check_witness succeeds exactly when absorbing the witness with a
single p3_observe_single call succeeds and p3_sample_bits succeeds on the
updated transcript, and its emitted constraint is the equality of the derived
value with zero; the transcript-state result is the one sample_bits leaves. -/
theorem C5_check_witness_contract (WIDTH : Nat) (perm : List Nat → List Nat)
    (bits w : Nat) (x x2 : DuplexChallengerTarget Nat) (c : Nat × Nat) :
    p3_check_witness WIDTH perm bits w x = some (x2, c) ↔
      ∃ x1 res, p3_observe_single WIDTH perm w x = some x1 ∧
        p3_sample_bits WIDTH perm bits x1 = some (res, x2) ∧ c = (res, 0) := by
  unfold p3_check_witness
  cases ho : p3_observe_single WIDTH perm w x with
  | none => simp
  | some x1 =>
    rw [Option.some_bind]
    cases hsb : p3_sample_bits WIDTH perm bits x1 with
    | none => simp [hsb]
    | some rx =>
      rw [Option.map_some']
      constructor
      · intro h
        simp only [Option.some.injEq, Prod.mk.injEq] at h
        obtain ⟨h1, h2⟩ := h
        refine ⟨x1, rx.1, rfl, ?_, h2.symm⟩
        rw [← h1]
        exact hsb
      · rintro ⟨x1', res, h1, h2, h3⟩
        simp only [Option.some.injEq] at h1
        subst h1
        rw [h2] at hsb
        simp only [Option.some.injEq] at hsb
        rw [← hsb, h3]

/-- C6: from any state satisfying the reachable-state invariant, every sequence
of public operations runs to completion (the duplex assertion, modelled as the
`none` outcome, never fires) and the input buffer stays within WIDTH at every
operation boundary. -/
theorem C6_input_buffer_bounded (WIDTH : Nat) (perm : List Nat → List Nat)
    (hW : 1 ≤ WIDTH) (hperm : PermGood WIDTH perm) (x : DuplexChallengerTarget Nat)
    (hx : GoodState WIDTH x) (ops : List ChallengerOp) :
    ∃ x', runOps WIDTH perm ops x = some x' ∧
      x'.input_buffer.length ≤ WIDTH ∧ GoodState WIDTH x' := by
  induction ops generalizing x with
  | nil => exact ⟨x, rfl, Nat.le_of_lt hx.2, hx⟩
  | cons op ops ih =>
    obtain ⟨x1, he, hg⟩ := runOp_good WIDTH perm hW hperm op x hx
    obtain ⟨x2, he2, hb2, hg2⟩ := ih x1 hg
    exact ⟨x2, by rw [runOps, he, Option.some_bind, he2], hb2, hg2⟩

/-- Witness for C6: WIDTH 2, the reverse permutation, a fresh state, and a
sequence exercising absorb, sample and the proof-of-work check. -/
theorem C6_input_buffer_bounded_witness :
    ∃ x', runOps 2 List.reverse
        [ChallengerOp.observe_single 5, ChallengerOp.sample,
         ChallengerOp.check_witness 3 7] (⟨[0, 1], [], []⟩ : DuplexChallengerTarget Nat) =
        some x' ∧ x'.input_buffer.length ≤ 2 ∧ GoodState 2 x' :=
  C6_input_buffer_bounded 2 List.reverse (by decide)
    (fun s h => (List.length_reverse s).trans h) ⟨[0, 1], [], []⟩ ⟨rfl, by decide⟩
    [ChallengerOp.observe_single 5, ChallengerOp.sample, ChallengerOp.check_witness 3 7]

/-- C7: starting from empty input and output buffers, WIDTH successive samples
trigger exactly one permutation and release the post-permutation sponge state
in reverse order, leaving both buffers empty; the (WIDTH+1)-th sample triggers
exactly one additional permutation. -/
theorem C7_sampling_budget (WIDTH : Nat) (perm : List T → List T)
    (hW : 1 ≤ WIDTH) (hperm : PermGood WIDTH perm) (x : DuplexChallengerTarget T)
    (hin : x.input_buffer = []) (hout : x.output_buffer = [])
    (hsp : x.sponge_state.length = WIDTH) :
    p3_sample_arr WIDTH perm WIDTH x =
      some ((perm x.sponge_state).reverse, ⟨perm x.sponge_state, [], []⟩) ∧
    duplexTriggerCount WIDTH perm WIDTH x = 1 ∧
    duplexTriggerCount WIDTH perm (WIDTH + 1) x = 2 := by
  obtain ⟨k, hk⟩ : ∃ k, WIDTH = k + 1 := ⟨WIDTH - 1, by omega⟩
  subst hk
  have hd : sampleNeedsDuplex x = true := by
    simp [sampleNeedsDuplex, hout]
  have hdup : p3_duplexing (k + 1) perm x =
      some ⟨perm x.sponge_state, [], perm x.sponge_state⟩ := by
    rw [p3_duplexing_eq (k + 1) perm x (by rw [hin]; simp), hin, overwriteFirst_nil]
  have hlen : (perm x.sponge_state).length = k + 1 := hperm _ hsp
  have hne : perm x.sponge_state ≠ [] := by
    intro h0
    rw [h0] at hlen
    simp at hlen
  have hs : p3_sample (k + 1) perm x =
      some ((perm x.sponge_state).getLast hne,
        ⟨perm x.sponge_state, [], (perm x.sponge_state).dropLast⟩) :=
    p3_sample_of_duplex (k + 1) perm x hd ⟨perm x.sponge_state, [], perm x.sponge_state⟩
      hdup hne
  have hdl : (perm x.sponge_state).dropLast.length = k := by
    rw [List.length_dropLast, hlen]
    omega
  have hdrain := fun k' => sample_drain (k + 1) perm k k'
    (⟨perm x.sponge_state, [], (perm x.sponge_state).dropLast⟩ : DuplexChallengerTarget T)
    rfl (by rw [hdl])
  have hxf : ({ (⟨perm x.sponge_state, [], (perm x.sponge_state).dropLast⟩ :
        DuplexChallengerTarget T) with
      output_buffer := (perm x.sponge_state).dropLast.take
        ((perm x.sponge_state).dropLast.length - k) } : DuplexChallengerTarget T) =
      ⟨perm x.sponge_state, [], []⟩ := by
    rw [hdl, Nat.sub_self, List.take_zero]
  have hxf2 : (⟨perm x.sponge_state, [],
      (perm x.sponge_state).dropLast.take ((perm x.sponge_state).dropLast.length - k)⟩ :
        DuplexChallengerTarget T) = ⟨perm x.sponge_state, [], []⟩ := hxf
  refine ⟨?_, ?_, ?_⟩
  · rw [p3_sample_arr, hs, Option.some_bind, (hdrain 0).1, Option.map_some', hxf]
    have htake : (perm x.sponge_state).dropLast.reverse.take k =
        (perm x.sponge_state).dropLast.reverse := by
      apply List.take_of_length_le
      rw [List.length_reverse, hdl]
    rw [htake, ← reverse_eq_getLast_cons (perm x.sponge_state) hne]
  · rw [duplexTriggerCount, hd, if_pos rfl]
    simp only [hs]
    have h2 : duplexTriggerCount (k + 1) perm k
        (⟨perm x.sponge_state, [], (perm x.sponge_state).dropLast⟩ :
          DuplexChallengerTarget T) =
        duplexTriggerCount (k + 1) perm 0
          (⟨perm x.sponge_state, [],
            (perm x.sponge_state).dropLast.take
              ((perm x.sponge_state).dropLast.length - k)⟩ :
            DuplexChallengerTarget T) := (hdrain 0).2
    rw [h2, hxf2]
    rfl
  · rw [duplexTriggerCount, hd, if_pos rfl]
    simp only [hs]
    have h3 : duplexTriggerCount (k + 1) perm (k + 1)
        (⟨perm x.sponge_state, [], (perm x.sponge_state).dropLast⟩ :
          DuplexChallengerTarget T) =
        duplexTriggerCount (k + 1) perm 1
          (⟨perm x.sponge_state, [],
            (perm x.sponge_state).dropLast.take
              ((perm x.sponge_state).dropLast.length - k)⟩ :
            DuplexChallengerTarget T) := (hdrain 1).2
    rw [h3, hxf2]
    have hdxf : sampleNeedsDuplex (⟨perm x.sponge_state, [], []⟩ :
        DuplexChallengerTarget T) = true := by
      simp [sampleNeedsDuplex]
    rw [duplexTriggerCount, hdxf, if_pos rfl]
    cases hsf : p3_sample (k + 1) perm (⟨perm x.sponge_state, [], []⟩ :
        DuplexChallengerTarget T) with
    | none => rfl
    | some vx => rfl

/-- Witness for C7: WIDTH 12 (the spec scenario), the reverse permutation, a
fresh 12-wire state. -/
theorem C7_sampling_budget_witness :
    p3_sample_arr 12 List.reverse 12
        (⟨[0, 1, 2, 3, 4, 5, 6, 7, 8, 9, 10, 11], [], []⟩ : DuplexChallengerTarget Nat) =
      some ((List.reverse [0, 1, 2, 3, 4, 5, 6, 7, 8, 9, 10, 11]).reverse,
        ⟨List.reverse [0, 1, 2, 3, 4, 5, 6, 7, 8, 9, 10, 11], [], []⟩) ∧
    duplexTriggerCount 12 List.reverse 12
        (⟨[0, 1, 2, 3, 4, 5, 6, 7, 8, 9, 10, 11], [], []⟩ : DuplexChallengerTarget Nat) = 1 ∧
    duplexTriggerCount 12 List.reverse 13
        (⟨[0, 1, 2, 3, 4, 5, 6, 7, 8, 9, 10, 11], [], []⟩ : DuplexChallengerTarget Nat) = 2 :=
  C7_sampling_budget 12 List.reverse (by decide)
    (fun s h => (List.length_reverse s).trans h)
    ⟨[0, 1, 2, 3, 4, 5, 6, 7, 8, 9, 10, 11], [], []⟩ rfl rfl rfl

/-- C8: for bits at most 63, any value returned by p3_sample_bits lies in the
interval from 0 to 2 ^ bits - 1. -/
theorem C8_sample_bits_range (WIDTH : Nat) (perm : List Nat → List Nat)
    (bits : Nat) (x x' : DuplexChallengerTarget Nat) (v : Nat) (hb : bits ≤ 63)
    (h : p3_sample_bits WIDTH perm bits x = some (v, x')) :
    v ≤ 2 ^ bits - 1 := by
  unfold p3_sample_bits at h
  cases hs : p3_sample WIDTH perm x with
  | none =>
    rw [hs] at h
    simp at h
  | some rx =>
    rw [hs, Option.map_some'] at h
    simp only [Option.some.injEq, Prod.mk.injEq] at h
    obtain ⟨hv, -⟩ := h
    rw [← hv, fsub_mask bits hb, p3_constant_pow 32 (by norm_num)]
    unfold mul_const_add split_low_high and_u64
    refine Nat.le_trans (Nat.mod_le _ _) ?_
    refine Nat.le_trans
      (Nat.add_le_add (Nat.mul_le_mul (Nat.le_refl _) Nat.and_le_right) Nat.and_le_right) ?_
    exact Nat.le_of_eq (Nat.div_add_mod _ _)

/-- Witness for C8: WIDTH 2, the reverse permutation, bits 5; the sampled
challenge is 5 and the masked result 5 lies below 2 ^ 5. -/
theorem C8_sample_bits_range_witness : (5 : Nat) ≤ 2 ^ 5 - 1 :=
  C8_sample_bits_range 2 List.reverse 5 ⟨[5, 7], [], []⟩ ⟨[7, 5], [], [7]⟩ 5
    (by decide) (by decide)

/-- C9: p3_sample_bits with bits 0 always returns the value zero, whatever
challenge was sampled, because the mask is zero. -/
theorem C9_sample_bits_zero (WIDTH : Nat) (perm : List Nat → List Nat)
    (x x' : DuplexChallengerTarget Nat) (v : Nat)
    (h : p3_sample_bits WIDTH perm 0 x = some (v, x')) : v = 0 := by
  unfold p3_sample_bits at h
  cases hs : p3_sample WIDTH perm x with
  | none =>
    rw [hs] at h
    simp at h
  | some rx =>
    rw [hs, Option.map_some'] at h
    simp only [Option.some.injEq, Prod.mk.injEq] at h
    obtain ⟨hv, -⟩ := h
    have hm : fsub (p3_constant (2 ^ 0)) 1 = 0 := by decide
    rw [hm] at hv
    simp only [split_low_high, and_u64, mul_const_add, Nat.zero_div, Nat.zero_mod,
      Nat.and_zero, Nat.mul_zero, Nat.add_zero, Nat.zero_mod] at hv
    exact hv.symm

/-- Witness for C9: WIDTH 2, the reverse permutation, bits 0 on a concrete
state. -/
theorem C9_sample_bits_zero_witness :
    p3_sample_bits 2 List.reverse 0 (⟨[5, 7], [], []⟩ : DuplexChallengerTarget Nat) =
      some (0, ⟨[7, 5], [], [7]⟩) ∧ (0 : Nat) = 0 :=
  ⟨by decide, C9_sample_bits_zero 2 List.reverse ⟨[5, 7], [], []⟩ ⟨[7, 5], [], [7]⟩ 0
    (by decide)⟩

/-- C10: from_builder yields a sponge of exactly WIDTH wires with both buffers
empty; hence the first sample after construction satisfies the duplex guard,
and for WIDTH at least 1 the pop succeeds (the sample returns a value). -/
theorem C10_from_builder_contract (WIDTH : Nat) (perm : List T → List T)
    (fresh : Nat → T) (hW : 1 ≤ WIDTH) (hperm : PermGood WIDTH perm) :
    (from_builder WIDTH fresh).sponge_state.length = WIDTH ∧
    (from_builder WIDTH fresh).input_buffer = [] ∧
    (from_builder WIDTH fresh).output_buffer = [] ∧
    sampleNeedsDuplex (from_builder WIDTH fresh) = true ∧
    ∃ v x', p3_sample WIDTH perm (from_builder WIDTH fresh) = some (v, x') := by
  have hsp : (from_builder WIDTH fresh).sponge_state.length = WIDTH := by
    simp [from_builder]
  refine ⟨hsp, rfl, rfl, rfl, ?_⟩
  obtain ⟨v, x', he, -⟩ := sample_good WIDTH perm hW hperm (from_builder WIDTH fresh)
    ⟨hsp, by simpa [from_builder] using hW⟩
  exact ⟨v, x', he⟩

/-- Witness for C10: WIDTH 2, the reverse permutation, the identity wire
supply. -/
theorem C10_from_builder_contract_witness :
    (from_builder 2 (fun i => i)).sponge_state.length = 2 ∧
    (from_builder 2 (fun i => i)).input_buffer = [] ∧
    (from_builder 2 (fun i => i)).output_buffer = [] ∧
    sampleNeedsDuplex (from_builder 2 (fun i => i)) = true ∧
    ∃ v x', p3_sample 2 List.reverse (from_builder 2 (fun i => i)) = some (v, x') :=
  C10_from_builder_contract 2 List.reverse (fun i => i) (by decide)
    (fun s h => (List.length_reverse s).trans h)

end P25
